import Mathlib

/-!
Shallow embedding of `wavetables-attiny-finetune.ino` (yorkmodular AVR VCO).

Machine integers are modelled as `Nat` with explicit reduction:
`uint16_t` stores reduce modulo 65536, `uint8_t` stores modulo 256; a
signed `int` value stored into a `uint16_t` goes through `Int.emod 65536`.

The wavetable contents and the two mapping functions `mapFreq` / `mapOsc`
live in `wavetables.h`, which is not part of the given source; they are
parameters of the embedding (`Wavetables`, and the `mapFreq mapOsc : Nat → Nat`
arguments of `loopPass`).
-/

namespace VCO

/-- The constant `BUFF_LENGTH` (4). -/
def BUFF_LENGTH : Nat := 4

/-- The constant `BUFF_SHIFT` (2). -/
def BUFF_SHIFT : Nat := 2

/-- A signed `int` value stored into a `uint16_t` variable: two's-complement
    wrap, i.e. the value modulo 2^16. -/
def intToU16 (v : Int) : Nat := (v % 65536).toNat

/-- The four PROGMEM-backed tables of `wavetables[]` (`sine`, `triangle`,
    `pulse`, `noise`); each is 256 bytes.  Contents live in the absent
    `wavetables.h`, so the bank is a parameter. -/
structure Wavetables where
  sine : Nat → Nat
  triangle : Nat → Nat
  pulse : Nat → Nat
  noise : Nat → Nat

/-- A `pgm_read_byte_near(table + i)` access: a byte read at a byte index — the index
    is a `uint8_t` (reduce mod 256) and the value read is a byte
    (reduce mod 256). -/
def tableRead (t : Nat → Nat) (i : Nat) : Nat := t (i % 256) % 256

/-- The global variables of the sketch that the ISR and `loop()` read or
    write.  `syncOffset`, `pitch_offset` and `a1_level` are declared in the
    source but never read, and are omitted. -/
structure State where
  /-- Models `volatile uint16_t syncPhaseAcc`. -/
  syncPhaseAcc : Nat
  /-- Models `volatile uint16_t syncPhaseInc`. -/
  syncPhaseInc : Nat
  /-- Models `volatile uint16_t baseFreq`. -/
  baseFreq : Nat
  /-- Models `volatile uint16_t finetune`. -/
  finetune : Nat
  /-- Models `volatile uint8_t current_wavetable`. -/
  current_wavetable : Nat
  /-- Models `volatile uint8_t phase_offset`. -/
  phase_offset : Nat
  /-- Models `volatile uint8_t range_high` (only ever 0 or 1). -/
  range_high : Nat
  /-- Models `uint16_t acc` (the running sum used at publish time). -/
  acc : Nat
  /-- Models `uint16_t buffered_vals[0]`. -/
  buffered0 : Nat
  /-- Models `uint16_t buffered_vals[1]`. -/
  buffered1 : Nat
  /-- Models `uint16_t buffered_vals[2]`. -/
  buffered2 : Nat
  /-- Models `uint16_t buffered_vals[3]`. -/
  buffered3 : Nat
  /-- Models `uint16_t buff_step`. -/
  buff_step : Nat
  /-- Models `OCR1A`, the PWM duty register the ISR writes each tick. -/
  ocr1a : Nat
deriving DecidableEq

/-- State after `audioOn()` (called from `setup()`): AVR globals start
    zeroed, `audioOn` re-zeroes `syncPhaseAcc`, `buff_step` and the buffer,
    and sets `OCR1A = 128`. -/
def initState : State :=
  { syncPhaseAcc := 0, syncPhaseInc := 0, baseFreq := 0, finetune := 0,
    current_wavetable := 0, phase_offset := 0, range_high := 0,
    acc := 0, buffered0 := 0, buffered1 := 0, buffered2 := 0, buffered3 := 0,
    buff_step := 0, ocr1a := 128 }

/-- The effective per-tick increment chosen by the ISR:
    `(range_high == 0) ? syncPhaseInc >> 1 : syncPhaseInc >> 4`. -/
def effInc (range_high syncPhaseInc : Nat) : Nat :=
  if range_high = 0 then syncPhaseInc >>> 1 else syncPhaseInc >>> 4

/-- The `switch (current_wavetable)` of the ISR, computing the local
    `val` from the locals `step` and `phased_step = step + phase_offset`
    (both `uint8_t`).  The `default:` branch's first table read is a dead
    store immediately overwritten, and is dropped. -/
def isrVal (tb : Wavetables) (wt step po : Nat) : Nat :=
  let phased_step := (step + po) % 256
  if wt = 0 then tableRead tb.sine step               -- WAVETABLE_SINE
  else if wt = 1 then tableRead tb.triangle step      -- WAVETABLE_TRIANGLE
  else if wt = 2 then step                            -- WAVETABLE_SAW: val = step
  else if wt = 3 then (if step < 128 then 0 else 255) -- WAVETABLE_SQUARE
  else if wt = 4 then tableRead tb.pulse step         -- WAVETABLE_PULSE
  else (tableRead tb.noise phased_step * 2) % 256     -- default (noise), uint8 <<1

/-- One invocation of `ISR(TIMER0_COMPA_vect)`. -/
def tick (tb : Wavetables) (s : State) : State :=
  let acc1 := (s.syncPhaseAcc + effInc s.range_high s.syncPhaseInc) % 65536
  let step := acc1 >>> 8
  let val := isrVal tb s.current_wavetable step s.phase_offset
  { s with syncPhaseAcc := acc1, ocr1a := val }

/-- Writes `buffered_vals[i] = v` for the `uint16_t` array of length 4
    (the index is `buff_step`, which the program keeps in 0..3). -/
def writeBuffered (s : State) (i v : Nat) : State :=
  if i % 4 = 0 then { s with buffered0 := v }
  else if i % 4 = 1 then { s with buffered1 := v }
  else if i % 4 = 2 then { s with buffered2 := v }
  else { s with buffered3 := v }

/-- The analog/digital readings one pass of `loop()` observes:
    `analogRead(CV_INPUT)`, `analogRead(WAVE_INPUT)`, `analogRead(OP_INPUT)`
    (each 0..1023 on the hardware) and `digitalRead(0) == HIGH`. -/
structure LoopInputs where
  cv : Nat
  wave : Nat
  op : Nat
  rangeHigh : Bool

/-- One pass of `loop()`.  `mapFreq` and `mapOsc` are declared in the absent
    `wavetables.h`; per their contract (spec §4.1/§4.2) they return a
    `uint16_t` resp. `uint8_t`-range value — here arbitrary `Nat → Nat`
    functions whose results are reduced by the `uint16_t` stores. -/
def loopPass (mapFreq mapOsc : Nat → Nat) (inp : LoopInputs) (s : State) : State :=
  -- baseFreq = mapFreq(analogRead(CV_INPUT));
  let baseFreq1 := mapFreq inp.cv % 65536
  -- buffered_vals[buff_step++] = mapOsc(analogRead(WAVE_INPUT));
  let s1 := writeBuffered s s.buff_step (mapOsc inp.wave % 65536)
  let bs1 := (s.buff_step + 1) % 65536
  -- if (buff_step == BUFF_LENGTH) { acc = 0; for (...) acc += buffered_vals[i];
  --   current_wavetable = (acc >> BUFF_SHIFT) & 0xff; acc = 0; buff_step = 0; }
  let s2 :=
    if bs1 = BUFF_LENGTH then
      let a4 := ((((0 + s1.buffered0) % 65536 + s1.buffered1) % 65536
                    + s1.buffered2) % 65536 + s1.buffered3) % 65536
      { s1 with current_wavetable := ((a4 >>> BUFF_SHIFT) &&& 255) % 256,
                acc := 0, buff_step := 0 }
    else { s1 with buff_step := bs1 }
  -- finetune = -64 + (analogRead(OP_INPUT) >> 3);
  let ft := intToU16 (-64 + ((inp.op >>> 3 : Nat) : Int))
  -- syncPhaseInc = baseFreq + finetune;
  -- range_high = (digitalRead(0) == HIGH) ? 1 : 0;
  { s2 with baseFreq := baseFreq1, finetune := ft,
            syncPhaseInc := (baseFreq1 + ft) % 65536,
            range_high := if inp.rangeHigh then 1 else 0 }

/-- Reachable program states: the initial state, closed under ISR ticks and
    control-loop passes (in any interleaving). -/
inductive Reachable (tb : Wavetables) (mf mo : Nat → Nat) : State → Prop
  | start : Reachable tb mf mo initState
  | isr : ∀ s, Reachable tb mf mo s → Reachable tb mf mo (tick tb s)
  | ctrl : ∀ s inp, Reachable tb mf mo s → Reachable tb mf mo (loopPass mf mo inp s)

/-- An all-zero table bank, used to instantiate theorems at concrete inputs. -/
def zeroTables : Wavetables :=
  { sine := fun _ => 0, triangle := fun _ => 0, pulse := fun _ => 0, noise := fun _ => 0 }

/-- A bank whose noise table is the identity ramp, used to instantiate
    theorems at concrete inputs. -/
def rampTables : Wavetables :=
  { sine := fun _ => 0, triangle := fun _ => 0, pulse := fun _ => 0, noise := fun i => i }

/-! Helper lemmas -/

/-- The ISR never touches the control fields: `syncPhaseInc`, `range_high`,
    `current_wavetable` and `phase_offset` survive a tick. -/
lemma tick_ctrl_fields (tb : Wavetables) (s : State) :
    (tick tb s).syncPhaseInc = s.syncPhaseInc ∧
    (tick tb s).range_high = s.range_high ∧
    (tick tb s).current_wavetable = s.current_wavetable ∧
    (tick tb s).phase_offset = s.phase_offset := by
  refine ⟨rfl, rfl, rfl, rfl⟩

/-- With no control updates, `N` ticks leave the control fields unchanged and
    advance the accumulator to `(acc₀ + N · effInc) mod 2^16`. -/
lemma iterate_tick_state (tb : Wavetables) (s : State) (hacc : s.syncPhaseAcc < 65536) :
    ∀ N : Nat,
      ((tick tb)^[N] s).syncPhaseInc = s.syncPhaseInc ∧
      ((tick tb)^[N] s).range_high = s.range_high ∧
      ((tick tb)^[N] s).current_wavetable = s.current_wavetable ∧
      ((tick tb)^[N] s).syncPhaseAcc
        = (s.syncPhaseAcc + N * effInc s.range_high s.syncPhaseInc) % 65536 := by
  intro N
  induction N with
  | zero => exact ⟨rfl, rfl, rfl, by simpa using (Nat.mod_eq_of_lt hacc).symm⟩
  | succ n ih =>
    obtain ⟨hinc, hrh, hcw, ha⟩ := ih
    rw [Function.iterate_succ_apply']
    refine ⟨hinc, hrh, hcw, ?_⟩
    show ((_ : State).syncPhaseAcc + _) % 65536 = _
    rw [hinc, hrh, ha, Nat.mod_add_mod]
    ring_nf

/-- The emitted sample after `n+1` ticks, when the selected waveform is saw,
    is the top byte of the wrapped accumulator. -/
lemma iterate_tick_saw_ocr (tb : Wavetables) (s : State) (hacc : s.syncPhaseAcc < 65536)
    (hsaw : s.current_wavetable = 2) (n : Nat) :
    ((tick tb)^[n + 1] s).ocr1a
      = ((s.syncPhaseAcc + (n + 1) * effInc s.range_high s.syncPhaseInc) % 65536) >>> 8 := by
  obtain ⟨hinc, hrh, hcw, ha⟩ := iterate_tick_state tb s hacc n
  rw [Function.iterate_succ_apply']
  simp only [tick, isrVal, hcw, hsaw, hinc, hrh, ha]
  norm_num [Nat.mod_add_mod]
  ring_nf

/-- The square branch of the ISR switch, in closed form. -/
lemma isrVal_square (tb : Wavetables) (step po : Nat) :
    isrVal tb 3 step po = if step < 128 then 0 else 255 := rfl

/-- A buffer write touches only the `buffered_vals` slots. -/
lemma writeBuffered_other_fields (s : State) (i v : Nat) :
    (writeBuffered s i v).syncPhaseAcc = s.syncPhaseAcc ∧
    (writeBuffered s i v).syncPhaseInc = s.syncPhaseInc ∧
    (writeBuffered s i v).current_wavetable = s.current_wavetable ∧
    (writeBuffered s i v).phase_offset = s.phase_offset ∧
    (writeBuffered s i v).buff_step = s.buff_step ∧
    (writeBuffered s i v).acc = s.acc := by
  unfold writeBuffered
  split_ifs <;> exact ⟨rfl, rfl, rfl, rfl, rfl, rfl⟩

/-! Claims -/

/-- C1.  For every 16-bit increment `I` and every tick count `N`, starting
    from `phaseAccumulator = 0` (as set at startup) and with no control updates
    between ticks: with `range_high = 0` (audio range) the accumulator after
    `N` ISR invocations equals `(N * (I >> 1)) mod 65536`, and with
    `range_high = 1` (LFO range) it equals `(N * (I >> 4)) mod 65536`. -/
theorem c1_accumulator_after_N_ticks (tb : Wavetables) (s : State) (N : Nat)
    (h0 : s.syncPhaseAcc = 0) (hI : s.syncPhaseInc < 65536) :
    (s.range_high = 0 →
      ((tick tb)^[N] s).syncPhaseAcc = (N * (s.syncPhaseInc >>> 1)) % 65536) ∧
    (s.range_high = 1 →
      ((tick tb)^[N] s).syncPhaseAcc = (N * (s.syncPhaseInc >>> 4)) % 65536) := by
  have h := (iterate_tick_state tb s (by omega) N).2.2.2
  constructor
  · intro hr
    rw [h, h0, hr]
    simp [effInc]
  · intro hr
    rw [h, h0, hr]
    simp [effInc]

/-- Witness for C1: with `I = 1000`, audio range, after 3 ticks the
    accumulator is `3 * 500 = 1500`. -/
theorem c1_accumulator_after_N_ticks_witness :
    ((tick zeroTables)^[3] { initState with syncPhaseInc := 1000 }).syncPhaseAcc
      = (3 * ((1000 : Nat) >>> 1)) % 65536 :=
  (c1_accumulator_after_N_ticks zeroTables { initState with syncPhaseInc := 1000 } 3
    rfl (by decide)).1 rfl

/-- C2, counterexample.  The claim says the LFO-range per-tick advance is
    exactly one eighth of the audio-range advance for every increment `I`.
    At `I = 2` the audio advance is `2 >> 1 = 1` while the LFO advance is
    `2 >> 4 = 0`, and `8 * 0 ≠ 1`. -/
theorem c2_exact_ratio_counterexample :
    ¬ (8 * effInc 1 2 = effInc 0 2) := by decide

/-- C2, amended.  For every increment `I`, the LFO-range per-tick advance
    is the floor of one eighth of the audio-range advance
    (`I >> 4 = (I >> 1) / 8`); the ratio is exactly 8× whenever `I` is a
    multiple of 16 (so that no set bit is lost to the extra shift). -/
theorem c2_range_ratio_amended (I : Nat) :
    effInc 1 I = effInc 0 I / 8 ∧ (I % 16 = 0 → 8 * effInc 1 I = effInc 0 I) := by
  simp only [effInc, if_neg (by omega : ¬ (1 : Nat) = 0), if_pos rfl,
    Nat.shiftRight_eq_div_pow]
  constructor
  · show I / 2 ^ 4 = I / 2 ^ 1 / 8
    rw [Nat.div_div_eq_div_mul]
  · intro h16
    show 8 * (I / 2 ^ 4) = I / 2 ^ 1
    omega

/-- Witness for C2 (amended) at `I = 48`: `48 >> 4 = 3 = (48 >> 1) / 8` and
    `8 * 3 = 24 = 48 >> 1`. -/
theorem c2_range_ratio_amended_witness :
    effInc 1 48 = effInc 0 48 / 8 ∧ 8 * effInc 1 48 = effInc 0 48 :=
  ⟨(c2_range_ratio_amended 48).1, (c2_range_ratio_amended 48).2 (by decide)⟩

/-- C3.  For every `waveformId` not in `{0,1,2,3,4}`, the sample
    generator takes the `default:` (noise) branch and emits
    `val = (noiseTable[(step + phaseOffset) mod 256] * 2) mod 256` — the
    doubling may overflow the 8-bit value and wrap; the branch absorbs every
    unrecognized id with no error condition. -/
theorem c3_noise_fallback (tb : Wavetables) (wt step po : Nat)
    (h0 : wt ≠ 0) (h1 : wt ≠ 1) (h2 : wt ≠ 2) (h3 : wt ≠ 3) (h4 : wt ≠ 4) :
    isrVal tb wt step po = (tb.noise ((step + po) % 256) % 256 * 2) % 256 := by
  simp only [isrVal, tableRead, if_neg h0, if_neg h1, if_neg h2, if_neg h3, if_neg h4]
  rw [Nat.mod_mod_of_dvd (step + po) (dvd_refl 256)]

/-- Witness for C3: `waveformId = 7`, `step = 250`, `phase_offset = 10`,
    noise table the identity ramp — the read is at `(250+10) mod 256 = 4`,
    and `4 * 2 = 8`. -/
theorem c3_noise_fallback_witness :
    isrVal rampTables 7 250 10 = (rampTables.noise ((250 + 10) % 256) % 256 * 2) % 256 :=
  c3_noise_fallback rampTables 7 250 10
    (by decide) (by decide) (by decide) (by decide) (by decide)

/-- C5.  For every state whose `current_wavetable` selects square (3),
    the sample the tick emits is `0` when `step` (the top 8 bits of the
    updated accumulator) is in `[0,127]` and `255` when it is in `[128,255]`,
    and nothing but `0` or `255` is ever emitted by this branch. -/
theorem c5_square_levels (tb : Wavetables) (s : State)
    (hsq : s.current_wavetable = 3) :
    (((s.syncPhaseAcc + effInc s.range_high s.syncPhaseInc) % 65536) >>> 8 ≤ 127 →
        (tick tb s).ocr1a = 0) ∧
    (128 ≤ ((s.syncPhaseAcc + effInc s.range_high s.syncPhaseInc) % 65536) >>> 8 →
        (tick tb s).ocr1a = 255) ∧
    ((tick tb s).ocr1a = 0 ∨ (tick tb s).ocr1a = 255) := by
  have hv : (tick tb s).ocr1a =
      if ((s.syncPhaseAcc + effInc s.range_high s.syncPhaseInc) % 65536) >>> 8 < 128
      then 0 else 255 := by
    simp only [tick, hsq, isrVal_square]
  rw [hv]
  refine ⟨fun h => if_pos (by omega), fun h => if_neg (by omega), ?_⟩
  by_cases h : ((s.syncPhaseAcc + effInc s.range_high s.syncPhaseInc) % 65536) >>> 8 < 128
  · exact Or.inl (if_pos h)
  · exact Or.inr (if_neg h)

/-- Witness for C5: square wave at accumulator past the midpoint
    (`acc = 0x8000`, increment 0) emits 255. -/
theorem c5_square_levels_witness :
    (tick zeroTables { initState with current_wavetable := 3, syncPhaseAcc := 32768 }).ocr1a
      = 255 :=
  (c5_square_levels zeroTables
    { initState with current_wavetable := 3, syncPhaseAcc := 32768 } rfl).2.1 (by decide)

/-- C8.  No control-loop pass modifies `syncPhaseAcc`: for every pass
    (whatever its inputs — including one that toggles `range_high`) the
    accumulator after the pass equals its value before; a range change is
    applied without resetting the accumulator. -/
theorem c8_loop_preserves_accumulator (mf mo : Nat → Nat) (inp : LoopInputs) (s : State) :
    (loopPass mf mo inp s).syncPhaseAcc = s.syncPhaseAcc := by
  simp only [loopPass]
  split <;> simp [(writeBuffered_other_fields s s.buff_step (mo inp.wave % 65536)).1]

/-- A control pass touches only the control fields: `phase_offset` (and
    `syncPhaseAcc`, `ocr1a`) survive a `loop()` pass. -/
lemma loopPass_phase_offset (mf mo : Nat → Nat) (inp : LoopInputs) (s : State) :
    (loopPass mf mo inp s).phase_offset = s.phase_offset := by
  simp only [loopPass]
  split <;> simp [(writeBuffered_other_fields s s.buff_step (mo inp.wave % 65536)).2.2.2.1]

/-- C9.  In every reachable state, `phase_offset` still equals its
    initial value 0 (no code path writes it after initialization); hence
    `phased_step = (step + phase_offset) mod 256` equals `step`, and the
    noise fallback branch reads the noise table at the very index `step`
    used by the other waveforms. -/
theorem c9_phase_offset_always_zero (tb : Wavetables) (mf mo : Nat → Nat) (s : State)
    (hs : Reachable tb mf mo s) :
    s.phase_offset = 0 ∧
    (∀ step, step < 256 → (step + s.phase_offset) % 256 = step) ∧
    (∀ step, step < 256 →
      isrVal tb 5 step s.phase_offset = (tb.noise step % 256 * 2) % 256) := by
  have h0 : s.phase_offset = 0 := by
    induction hs with
    | start => rfl
    | isr s' _ ih => exact ih
    | ctrl s' inp _ ih => rw [loopPass_phase_offset]; exact ih
  refine ⟨h0, fun step hst => by omega, fun step hst => ?_⟩
  simp only [isrVal, tableRead, h0]
  norm_num [Nat.mod_eq_of_lt hst]

/-- Witness for C9 at the initial state (reachable by construction),
    instantiating the index quantifiers at `step = 200`. -/
theorem c9_phase_offset_always_zero_witness :
    initState.phase_offset = 0 ∧
    (200 + initState.phase_offset) % 256 = 200 ∧
    isrVal rampTables 5 200 initState.phase_offset
      = (rampTables.noise 200 % 256 * 2) % 256 := by
  obtain ⟨h1, h2, h3⟩ :=
    c9_phase_offset_always_zero rampTables id id initState Reachable.start
  exact ⟨h1, h2 200 (by decide), h3 200 (by decide)⟩

/-- C7.  Each control pass computes the fine-tune offset
    `(r >> 3) - 64` (stored into the `uint16_t` `finetune` modulo 2^16);
    the offset is zero exactly when the reading quantizes, via `>> 3`, to
    the same value as the midpoint reading 512; and the published
    `syncPhaseInc` equals `(baseFreq + ((r >> 3) - 64)) mod 2^16`. -/
theorem c7_finetune_midpoint (mf mo : Nat → Nat) (inp : LoopInputs) (s : State)
    (hop : inp.op ≤ 1023) :
    (loopPass mf mo inp s).finetune = intToU16 (((inp.op >>> 3 : Nat) : Int) - 64) ∧
    ((((inp.op >>> 3 : Nat) : Int) - 64 = 0) ↔ inp.op >>> 3 = (512 : Nat) >>> 3) ∧
    ((loopPass mf mo inp s).syncPhaseInc : Int)
      = (((loopPass mf mo inp s).baseFreq : Int) + (((inp.op >>> 3 : Nat) : Int) - 64))
          % 65536 := by
  have hft : (loopPass mf mo inp s).finetune
      = intToU16 (-64 + ((inp.op >>> 3 : Nat) : Int)) := by
    simp only [loopPass]
  have hbf : (loopPass mf mo inp s).baseFreq = mf inp.cv % 65536 := by
    simp only [loopPass]
  have hinc : (loopPass mf mo inp s).syncPhaseInc
      = (mf inp.cv % 65536 + intToU16 (-64 + ((inp.op >>> 3 : Nat) : Int))) % 65536 := by
    simp only [loopPass]
  refine ⟨by rw [hft]; congr 1, ?_, ?_⟩
  · have h512 : (512 : Nat) >>> 3 = 64 := by decide
    rw [h512]
    omega
  · rw [hinc, hbf]
    simp only [intToU16]
    push_cast
    omega

/-- Witness for C7 at the midpoint reading `r = 512` with `mapFreq ≡ 1000`:
    the offset is zero and the published increment is `1000 mod 2^16`. -/
theorem c7_finetune_midpoint_witness :
    (loopPass (fun _ => 1000) id ⟨0, 0, 512, false⟩ initState).finetune
      = intToU16 ((((512 : Nat) >>> 3 : Nat) : Int) - 64) ∧
    ((((512 : Nat) >>> 3 : Nat) : Int) - 64 = 0) ∧
    ((loopPass (fun _ => 1000) id ⟨0, 0, 512, false⟩ initState).syncPhaseInc : Int)
      = (((loopPass (fun _ => 1000) id ⟨0, 0, 512, false⟩ initState).baseFreq : Int)
          + ((((512 : Nat) >>> 3 : Nat) : Int) - 64)) % 65536 := by
  obtain ⟨h1, h2, h3⟩ :=
    c7_finetune_midpoint (fun _ => 1000) id ⟨0, 0, 512, false⟩ initState (by decide)
  exact ⟨h1, h2.mpr (by decide), h3⟩

/-- C10.  The variable `finetune` is an unsigned 16-bit store and the sum into
    `syncPhaseInc` is taken modulo 2^16, so whenever
    `baseFreq + (r >> 3) < 64` the published increment wraps to
    `65472 + baseFreq + (r >> 3)` — at least 65472, near the top of the
    16-bit range, instead of saturating at a small value. -/
theorem c10_negative_offset_wraps (mf mo : Nat → Nat) (inp : LoopInputs) (s : State)
    (hsmall : mf inp.cv % 65536 + (inp.op >>> 3) < 64) :
    (loopPass mf mo inp s).syncPhaseInc
        = 65472 + mf inp.cv % 65536 + (inp.op >>> 3) ∧
    65472 ≤ (loopPass mf mo inp s).syncPhaseInc := by
  have hinc : (loopPass mf mo inp s).syncPhaseInc
      = (mf inp.cv % 65536 + intToU16 (-64 + ((inp.op >>> 3 : Nat) : Int))) % 65536 := by
    simp only [loopPass]
  rw [hinc]
  simp only [intToU16]
  omega

/-- Witness for C10: `mapFreq ≡ 10`, fine-tune reading 0 — the published
    increment is `65472 + 10 = 65482`, not a value below 10. -/
theorem c10_negative_offset_wraps_witness :
    (loopPass (fun _ => 10) id ⟨0, 0, 0, false⟩ initState).syncPhaseInc = 65482 ∧
    65472 ≤ (loopPass (fun _ => 10) id ⟨0, 0, 0, false⟩ initState).syncPhaseInc := by
  obtain ⟨h1, h2⟩ :=
    c10_negative_offset_wraps (fun _ => 10) id ⟨0, 0, 0, false⟩ initState (by decide)
  exact ⟨by rw [h1]; rfl, h2⟩

/-- Masking with 0xff is reduction modulo 256. -/
lemma land255 (x : Nat) : x &&& 255 = x % 256 := by
  have h := Nat.and_pow_two_sub_one_eq_mod x 8
  norm_num at h
  exact h

/-- C4.  Starting from a state whose buffer position is 0 (as after
    startup or after any publish), the published `current_wavetable` is
    unchanged by the first three readings of a group of four; the fourth
    reading publishes `floor((sum of the 4 mapped readings) / 4)` and resets
    the running sum `acc` and the buffer position to zero.  The mapped
    readings are 8-bit values per the `mapOsc` contract. -/
theorem c4_smoothing_every_fourth (mf mo : Nat → Nat) (i1 i2 i3 i4 : LoopInputs) (s : State)
    (h0 : s.buff_step = 0)
    (hb1 : mo i1.wave < 256) (hb2 : mo i2.wave < 256)
    (hb3 : mo i3.wave < 256) (hb4 : mo i4.wave < 256) :
    (loopPass mf mo i1 s).current_wavetable = s.current_wavetable ∧
    (loopPass mf mo i2 (loopPass mf mo i1 s)).current_wavetable = s.current_wavetable ∧
    (loopPass mf mo i3 (loopPass mf mo i2 (loopPass mf mo i1 s))).current_wavetable
      = s.current_wavetable ∧
    (loopPass mf mo i4 (loopPass mf mo i3 (loopPass mf mo i2
        (loopPass mf mo i1 s)))).current_wavetable
      = (mo i1.wave + mo i2.wave + mo i3.wave + mo i4.wave) / 4 ∧
    (loopPass mf mo i4 (loopPass mf mo i3 (loopPass mf mo i2
        (loopPass mf mo i1 s)))).buff_step = 0 ∧
    (loopPass mf mo i4 (loopPass mf mo i3 (loopPass mf mo i2
        (loopPass mf mo i1 s)))).acc = 0 := by
  simp [loopPass, writeBuffered, h0, BUFF_LENGTH, BUFF_SHIFT, land255,
    Nat.shiftRight_eq_div_pow]
  omega

/-- Witness for C4: readings mapping to 3, 3, 2, 2 publish
    `floor(10/4) = 2` on the fourth pass, with the buffer reset. -/
theorem c4_smoothing_every_fourth_witness :
    (loopPass id (fun _ => 3) ⟨0, 0, 0, false⟩ initState).current_wavetable
      = initState.current_wavetable ∧
    (loopPass id (fun _ => 2) ⟨0, 1, 0, false⟩ (loopPass id (fun _ => 2) ⟨0, 1, 0, false⟩
        (loopPass id (fun _ => 2) ⟨0, 1, 0, false⟩ (loopPass id (fun _ => 2) ⟨0, 0, 0, false⟩
          initState)))).current_wavetable = 2 := by
  have h := c4_smoothing_every_fourth id (fun _ => 2)
    ⟨0, 0, 0, false⟩ ⟨0, 1, 0, false⟩ ⟨0, 1, 0, false⟩ ⟨0, 1, 0, false⟩ initState
    rfl (by decide) (by decide) (by decide) (by decide)
  refine ⟨?_, ?_⟩
  · have h2 := c4_smoothing_every_fourth id (fun _ => 3)
      ⟨0, 0, 0, false⟩ ⟨0, 1, 0, false⟩ ⟨0, 1, 0, false⟩ ⟨0, 1, 0, false⟩ initState
      rfl (by decide) (by decide) (by decide) (by decide)
    exact h2.1
  · exact h.2.2.2.1

/-- A state ready to run the saw branch: post-startup state with
    `current_wavetable = 2` and a given increment and range setting. -/
def sawState (I rh : Nat) : State :=
  { initState with current_wavetable := 2, syncPhaseInc := I, range_high := rh }

/-- C6, counterexample.  The claim says the saw samples over one cycle
    form the strictly increasing sequence `0,1,2,...,255` for every positive
    increment.  With `syncPhaseInc = 2` in audio range the effective
    increment is `2 >> 1 = 1 > 0`, yet the first two ticks both emit 0
    (the accumulator needs 256 ticks to move the top byte), so the second
    sample is not the successor of the first. -/
theorem c6_strict_ramp_counterexample :
    0 < effInc (sawState 2 0).range_high (sawState 2 0).syncPhaseInc ∧
    ((tick zeroTables)^[1] (sawState 2 0)).ocr1a = 0 ∧
    ((tick zeroTables)^[2] (sawState 2 0)).ocr1a = 0 ∧
    ¬ (((tick zeroTables)^[2] (sawState 2 0)).ocr1a
        = ((tick zeroTables)^[1] (sawState 2 0)).ocr1a + 1) := by
  refine ⟨by decide, by decide, by decide, by decide⟩

/-- C6, amended.  When `current_wavetable` selects saw, the emitted
    sample equals `step`, the top 8 bits of the wrapped accumulator;
    within one cycle (while the accumulator has not wrapped) consecutive
    samples are non-decreasing; and the sequence is the exact ramp
    `0,1,2,...,255` (one step per tick) precisely in the case of effective
    increment 256, not for every positive increment. -/
theorem c6_saw_ramp_amended (tb : Wavetables) (I rh n : Nat) :
    ((tick tb)^[n + 1] (sawState I rh)).ocr1a
      = ((n + 1) * effInc rh I % 65536) >>> 8 ∧
    (0 < effInc rh I → (n + 2) * effInc rh I < 65536 →
      ((tick tb)^[n + 1] (sawState I rh)).ocr1a
        ≤ ((tick tb)^[n + 2] (sawState I rh)).ocr1a) ∧
    (effInc rh I = 256 →
      ((tick tb)^[n + 1] (sawState I rh)).ocr1a = (n + 1) % 256) := by
  have hacc : (sawState I rh).syncPhaseAcc < 65536 := by
    simp [sawState, initState]
  have hsaw : (sawState I rh).current_wavetable = 2 := rfl
  have key : ∀ m : Nat, ((tick tb)^[m + 1] (sawState I rh)).ocr1a
      = ((m + 1) * effInc rh I % 65536) >>> 8 := by
    intro m
    have h := iterate_tick_saw_ocr tb (sawState I rh) hacc hsaw m
    simpa [sawState, initState] using h
  refine ⟨key n, ?_, ?_⟩
  · intro he hlt
    have hle : (n + 1) * effInc rh I ≤ (n + 2) * effInc rh I :=
      Nat.mul_le_mul_right _ (by omega)
    have k2 := key (n + 1)
    have hnn : n + 1 + 1 = n + 2 := rfl
    rw [hnn] at k2
    rw [key n, k2]
    rw [Nat.mod_eq_of_lt (by omega), Nat.mod_eq_of_lt (by omega),
      Nat.shiftRight_eq_div_pow, Nat.shiftRight_eq_div_pow]
    exact Nat.div_le_div_right hle
  · intro h256
    rw [key n, h256, Nat.shiftRight_eq_div_pow]
    norm_num
    omega

/-- Witness for C6 (amended): increment 512 in audio range gives effective
    increment 256; the 4th tick emits sample 4, and sample 4 ≤ sample 5. -/
theorem c6_saw_ramp_amended_witness :
    ((tick zeroTables)^[4] (sawState 512 0)).ocr1a = (4 * effInc 0 512 % 65536) >>> 8 ∧
    ((tick zeroTables)^[4] (sawState 512 0)).ocr1a
      ≤ ((tick zeroTables)^[5] (sawState 512 0)).ocr1a ∧
    ((tick zeroTables)^[4] (sawState 512 0)).ocr1a = 4 % 256 := by
  obtain ⟨h1, h2, h3⟩ := c6_saw_ramp_amended zeroTables 512 0 3
  exact ⟨h1, h2 (by decide) (by decide), h3 (by decide)⟩

end VCO
